import Mathlib

/-!
Shallow embedding of the funding-tracker repository
(`bybit_multi_funding_tracker.py` and `bybit_negative_funding_tracker.py`).

Python strings are modelled as `List Char`, parsed decimal values as `ℚ`,
Python dicts as association lists or as update-built functions
(insertion overwriting on key collision, as in CPython), and `None` /
missing JSON fields as `Option`.
-/

/-- A Python string, modelled character by character. -/
abbrev Str := List Char

/-- The literal `"USDT"` used as quote-asset suffix and in `replace`. -/
def usdt : Str := ['U', 'S', 'D', 'T']

/-- `symbol.endswith('USDT')` from both trackers. -/
def endsWithUSDT (s : Str) : Bool := usdt.isSuffixOf s

/-- `symbol.replace('USDT', '')` (multi tracker, `main`): removes every
non-overlapping occurrence of `"USDT"`, scanning left to right as CPython
`str.replace` does. -/
def removeUSDT : Str → Str
  | 'U' :: 'S' :: 'D' :: 'T' :: rest => removeUSDT rest
  | c :: rest => c :: removeUSDT rest
  | [] => []

/-- `symbol[:-4]` (negative tracker, `main`, Step 5): everything but the
last four characters (empty when the string has at most four). -/
def pyStripLast4 (s : Str) : Str := s.take (s.length - 4)

/-- The join key of the multi tracker: `t['symbol'].replace('USDT', '')`. -/
def multi_base_key (s : Str) : Str := removeUSDT s

/-- The join key of the negative tracker: `symbol[:-4].upper()`. -/
def neg_base_key (s : Str) : Str := (pyStripLast4 s).map Char.toUpper

/-- Lookup in a Python dict modelled as an association list
(`d.get(k)`); Python dicts have unique keys, which theorems assume as a
`Nodup` hypothesis on the key list where it matters. -/
def dget (m : List (Str × β)) (k : Str) : Option β :=
  (m.find? (fun p => p.1 == k)).map Prod.snd

/-- Python dict assignment `m[k] = v` on a dict modelled as a function:
overwrites any previous binding of `k`. -/
def dinsert (m : Str → Option β) (k : Str) (v : β) : Str → Option β :=
  fun x => if x = k then some v else m x

/- ## Multi-direction tracker (`bybit_multi_funding_tracker.py`) -/

/-- One element of the Bybit `/v5/market/tickers` response list.
Numeric fields are `Option ℚ`: `none` models a missing key, for which the
source substitutes `0` via `t.get(field, 0)`. -/
structure BybitTicker where
  symbol : Str
  markPrice : Option ℚ
  fundingRate : Option ℚ
  turnover24h : Option ℚ
deriving DecidableEq

/-- Value of `cg_metadata` for one base symbol: `name` and `mcap`, where
`mcap` already folds `coin.get('market_cap') or 0` (null became `0`). -/
structure CGMeta where
  name : Str
  mcap : ℚ
deriving DecidableEq

/-- The fallback `{"name": "N/A", "mcap": 0}` used when the base symbol is
absent from the CoinGecko metadata dict. -/
def defaultMeta : CGMeta := ⟨['N', '/', 'A'], 0⟩

/-- One element of `processed_list` in the multi tracker's `main`. -/
structure MultiEntry where
  symbol : Str
  name : Str
  markPrice : ℚ
  fundingRate : ℚ
  marketCapUSD : ℚ
  turnover24h : ℚ
deriving DecidableEq

/-- `processed_list` from the multi tracker's `main`: keep USDT pairs,
look the stripped base up in the CoinGecko metadata (defaulting to
`{"name": "N/A", "mcap": 0}`), drop entries with `mcap < min_cap`, and
coerce missing numeric ticker fields to `0`. -/
def multi_processed (tickers : List BybitTicker) (cg : Str → Option CGMeta)
    (minCap : ℚ) : List MultiEntry :=
  (tickers.filter (fun t => endsWithUSDT t.symbol)).filterMap (fun t =>
    let meta := (cg (multi_base_key t.symbol)).getD defaultMeta
    if meta.mcap < minCap then none
    else some { symbol := t.symbol
                name := meta.name
                markPrice := t.markPrice.getD 0
                fundingRate := t.fundingRate.getD 0
                marketCapUSD := meta.mcap
                turnover24h := t.turnover24h.getD 0 })

/-- `sorted(processed_list, key=..., reverse=True)[:top]`: the
"HIGHEST POSITIVE FUNDING" table rows (stable descending sort by rate,
truncated). -/
def multi_pos_output (tickers : List BybitTicker) (cg : Str → Option CGMeta)
    (minCap : ℚ) (top : ℕ) : List MultiEntry :=
  ((multi_processed tickers cg minCap).mergeSort
    (fun a b => decide (b.fundingRate ≤ a.fundingRate))).take top

/-- `sorted(processed_list, key=...)[:top]`: the "MOST NEGATIVE FUNDING"
table rows (stable ascending sort by rate, truncated). -/
def multi_neg_output (tickers : List BybitTicker) (cg : Str → Option CGMeta)
    (minCap : ℚ) (top : ℕ) : List MultiEntry :=
  ((multi_processed tickers cg minCap).mergeSort
    (fun a b => decide (a.fundingRate ≤ b.fundingRate))).take top

/- ## Negative tracker (`bybit_negative_funding_tracker.py`) -/

/-- One funding-history item held in `funding_data[symbol]`.
`fundingRate` is the parsed rate; `none` models a missing field, which the
source coerces to `0` via `float(data.get("fundingRate", 0))`. -/
structure FundingInfo where
  fundingRate : Option ℚ
  fundingRateTimestamp : Option Str
deriving DecidableEq

/-- One ticker item held in `ticker_data[symbol]`. -/
structure TickerInfo where
  markPrice : Option ℚ
  turnover24h : Option ℚ
deriving DecidableEq

/-- One CoinGecko `/coins/markets` record held in `market_cap_data`:
`market_cap` may be JSON null (`none`). -/
structure CoinMarketData where
  id : Str
  market_cap : Option ℚ
deriving DecidableEq

/-- One element of `results` in the negative tracker's `main` (Step 7).
`marketCapUSD` is `WithTop ℚ`: `⊤` models the `float('inf')` placeholder
stored when `--skip-market-cap` is set.  The `nextFundingTime` display
string (ISO rendering of the timestamp) is presentation only and not
carried here. -/
structure NegEntry where
  symbol : Str
  base : Str
  fundingRate : ℚ
  marketCapUSD : WithTop ℚ
  markPrice : ℚ
  turnover24h : ℚ
deriving DecidableEq

/-- Step 3 of the negative tracker's `main`: the symbols of `funding_data`
whose coerced funding rate is strictly negative, in dict iteration
(insertion) order. -/
def negative_symbols (funding_data : List (Str × FundingInfo)) : List Str :=
  (funding_data.filter (fun p => decide (p.2.fundingRate.getD 0 < 0))).map Prod.fst

/-- Step 7 of the negative tracker's `main`: join funding, ticker and
market-cap data for each negative symbol; with filtering enabled, skip a
symbol when its resolved cap is truthy (nonzero) and below the floor
(`if market_cap and market_cap < args.min_cap: continue`). -/
def neg_results (funding_data : List (Str × FundingInfo))
    (ticker_data : List (Str × TickerInfo))
    (market_cap_data : List (Str × CoinMarketData))
    (skipMcap : Bool) (minCap : ℚ) : List NegEntry :=
  (negative_symbols funding_data).filterMap (fun symbol =>
    let base := neg_base_key symbol
    let fi := (dget funding_data symbol).getD ⟨none, none⟩
    let ti := (dget ticker_data symbol).getD ⟨none, none⟩
    let fundingRate := fi.fundingRate.getD 0
    let markPrice := ti.markPrice.getD 0
    let turnover := ti.turnover24h.getD 0
    if skipMcap then
      some { symbol := symbol, base := base, fundingRate := fundingRate
             marketCapUSD := ⊤, markPrice := markPrice, turnover24h := turnover }
    else
      let market_cap : ℚ :=
        ((dget market_cap_data (base.map Char.toLower)).bind
          (fun cd => cd.market_cap)).getD 0
      if market_cap ≠ 0 ∧ market_cap < minCap then none
      else
        some { symbol := symbol, base := base, fundingRate := fundingRate
               marketCapUSD := (market_cap : WithTop ℚ), markPrice := markPrice
               turnover24h := turnover })

/-- Steps 8 of the negative tracker: `results.sort(key=fundingRate)`
followed by `results[:args.top]`. -/
def neg_output (funding_data : List (Str × FundingInfo))
    (ticker_data : List (Str × TickerInfo))
    (market_cap_data : List (Str × CoinMarketData))
    (skipMcap : Bool) (minCap : ℚ) (top : ℕ) : List NegEntry :=
  ((neg_results funding_data ticker_data market_cap_data skipMcap minCap).mergeSort
    (fun a b => decide (a.fundingRate ≤ b.fundingRate))).take top

/- ## The HTTP fetchers (`_http_get` of each variant) -/

/-- Outcome of one HTTP attempt: a parsed 2xx body, a 429 status, or an
exception (timeout, other non-2xx raised by `raise_for_status`, ...). -/
inductive HttpOutcome (β ε : Type) where
  | ok (body : β)
  | rate429
  | exc (e : ε)
deriving DecidableEq

/-- What a fetcher call does: produce a value or raise. -/
inductive FetchResult (β ε : Type) where
  | value (b : β)
  | raised (e : ε)
deriving DecidableEq

/-- `_http_get` of the multi tracker, from loop iteration `attempt`
onwards, given the outcome of each attempt.  Returns the result together
with the list of `time.sleep` durations performed.  On 429 it sleeps
`(attempt + 1) * 30` and retries; on an exception it re-raises at
`attempt == 2` and otherwise sleeps `2` and retries; when the `for` loop
ends without returning it falls through to `return {}`, modelled as
`.value none` (`some b` models a real body `b`). -/
def multi_http_get_from (resp : ℕ → HttpOutcome β ε) (attempt : ℕ) :
    FetchResult (Option β) ε × List ℕ :=
  if 3 ≤ attempt then (.value none, [])
  else
    match resp attempt with
    | .ok b => (.value (some b), [])
    | .rate429 =>
        let r := multi_http_get_from resp (attempt + 1)
        (r.1, (attempt + 1) * 30 :: r.2)
    | .exc e =>
        if attempt = 2 then (.raised e, [])
        else
          let r := multi_http_get_from resp (attempt + 1)
          (r.1, 2 :: r.2)
termination_by 3 - attempt
decreasing_by all_goals omega

/-- `_http_get(url, params)` of the multi tracker: the loop starts at
attempt 0. -/
def multi_http_get (resp : ℕ → HttpOutcome β ε) :
    FetchResult (Option β) ε × List ℕ :=
  multi_http_get_from resp 0

/-- `_http_get` of the negative tracker: a single request, no retry;
`raise_for_status` raises on 429 too (modelled as error `none`), any other
exception `e` is raised as `some e`. -/
def neg_http_get (resp : HttpOutcome β ε) : FetchResult β (Option ε) :=
  match resp with
  | .ok b => .value b
  | .rate429 => .raised none
  | .exc e => .raised (some e)

/- ## Instrument catalog loader (`bybit_get_all_linear_instruments`) -/

/-- The `result` object of a `/v5/market/instruments-info` response:
`list` (may be absent) and `nextPageCursor` (may be absent; the source
also ignores an empty-string cursor, since `if resp...get("nextPageCursor")`
tests truthiness). -/
structure PageResult (ι : Type) where
  list : Option (List ι)
  nextPageCursor : Option Str

/-- A whole paginated response; `result` itself may be absent. -/
structure PageResp (ι : Type) where
  result : Option (PageResult ι)

/-- The page items contributed by one response:
`if "result" in resp and "list" in resp["result"]: out.extend(...)`. -/
def pageItems (resp : PageResp ι) : List ι :=
  match resp.result with
  | some res => res.list.getD []
  | none => []

/-- The truthy continuation cursor of a response, if any:
`resp.get("result", {}).get("nextPageCursor")` with Python truthiness
(absent or empty string means no further page). -/
def pageCursor (resp : PageResp ι) : Option Str :=
  match resp.result.bind (fun res => res.nextPageCursor) with
  | some c => if c = [] then none else some c
  | none => none

/-- `bybit_get_all_linear_instruments`, with the data source abstracted as
a function from the request cursor (`none` on the first page) to the
response.  Returns the accumulated instrument list together with the
number of page fetches performed.  The Python `while True` loop need not
terminate for an adversarial source, so the model carries fuel: one unit
per fetch, and `(fuel = 0)` returns the accumulator unchanged. -/
def bybit_get_all_linear_instruments (fetch : Option Str → PageResp ι) :
    ℕ → Option Str → List ι × ℕ
  | 0, _ => ([], 0)
  | fuel + 1, cursor =>
      let resp := fetch cursor
      match pageCursor resp with
      | some c =>
          let rest := bybit_get_all_linear_instruments fetch fuel (some c)
          (pageItems resp ++ rest.1, rest.2 + 1)
      | none => (pageItems resp, 1)

/- ## Batching (`range(0, len(xs), batch_size)` slicing) -/

/-- `[xs[i:i+k+1] for i in range(0, len(xs), k+1)]`: split a list into
consecutive slices of size `k + 1` (the last slice may be shorter).  The
size argument is `k + 1` so that the step is always positive. -/
def pyBatches (k : ℕ) : List α → List (List α)
  | [] => []
  | x :: xs => (x :: xs.take k) :: pyBatches k (xs.drop k)
termination_by l => l.length
decreasing_by simp; omega

/-- The CoinGecko requests issued by the negative tracker's
`coingecko_get_market_data_batch`: one `/coins/list` directory fetch (the
`1`), then one `/coins/markets` fetch per batch of 30 resolved coin ids. -/
def neg_cg_market_batches (coin_ids : List Str) : List (List Str) :=
  pyBatches 29 coin_ids

/-- The CoinGecko market-snapshot requests issued by the multi tracker's
`get_coingecko_data`: one `/coins/markets` fetch per batch of 250 resolved
coin ids. -/
def multi_cg_market_batches (target_ids : List Str) : List (List Str) :=
  pyBatches 249 target_ids

/-- Number of network round trips of `coingecko_get_market_data_batch`:
the single directory fetch plus one per 30-id batch. -/
def neg_cg_request_count (coin_ids : List Str) : ℕ × ℕ :=
  (1, (neg_cg_market_batches coin_ids).length)

/-- Number of network round trips of `get_coingecko_data` (multi tracker):
the single directory fetch plus one per 250-id batch. -/
def multi_cg_request_count (target_ids : List Str) : ℕ × ℕ :=
  (1, (multi_cg_market_batches target_ids).length)

/- ## Symbol-to-id directories (identifier resolution) -/

/-- One entry of the CoinGecko `/coins/list` directory. -/
structure CGCoin where
  symbol : Str
  id : Str
deriving DecidableEq

/-- `{c['symbol'].lower(): c['id'] for c in all_coins}` from the multi
tracker's `get_coingecko_data`: a dict comprehension, so a later entry
with the same lowercased ticker overwrites an earlier one. -/
def multi_symbol_to_id (all_coins : List CGCoin) : Str → Option Str :=
  all_coins.foldl
    (fun m c => dinsert m (c.symbol.map Char.toLower) c.id) (fun _ => none)

/-- The `symbol_to_id` loop of the negative tracker's
`coingecko_get_market_data_batch`: same overwrite-on-collision dict
build, restricted to the requested tickers. -/
def neg_symbol_to_id (coins_list : List CGCoin) (symbols : List Str) :
    Str → Option Str :=
  coins_list.foldl
    (fun m c =>
      let sym := c.symbol.map Char.toLower
      if sym ∈ symbols then dinsert m sym c.id else m)
    (fun _ => none)

/- ## Funding and ticker batch loaders (negative tracker) -/

/-- One item of a Bybit funding/ticker batch response: the loaders key it
by `item.get("symbol")` and keep it only when that value is truthy
(present and nonempty). -/
structure RespItem where
  symbol : Option Str
  payload : ℕ
deriving DecidableEq

/-- A funding/ticker batch response; `resultList` is
`resp["result"]["list"]` when both keys are present. -/
structure BatchResp where
  resultList : Option (List RespItem)
deriving DecidableEq

/-- The truthy dict key of an item: `symbol = item.get("symbol")` followed
by `if symbol:`. -/
def itemKey (it : RespItem) : Option Str :=
  match it.symbol with
  | some s => if s = [] then none else some s
  | none => none

/-- Insert one response item into the accumulated dict (skipped when its
symbol is absent or empty). -/
def insertItem (m : Str → Option RespItem) (it : RespItem) : Str → Option RespItem :=
  match itemKey it with
  | some s => dinsert m s it
  | none => m

/-- `bybit_get_funding_rates_batch` / `bybit_get_tickers_batch` (the two
loaders are textually identical up to the endpoint): slice the symbols
into batches of 10, fetch each batch, and on success insert every item
with a truthy symbol; a batch whose fetch raises is caught
(`except Exception`), logged, and contributes nothing, after which the
loop continues with the remaining batches. -/
def bybit_batch_loader (fetch : List Str → Except ε BatchResp)
    (symbols : List Str) : Str → Option RespItem :=
  (pyBatches 9 symbols).foldl
    (fun m batch =>
      match fetch batch with
      | .ok resp => (resp.resultList.getD []).foldl insertItem m
      | .error _ => m)
    (fun _ => none)

/-- The items of exactly the successful batches, in processing order:
what the partial-failure policy says the loader's dict is built from. -/
def successfulBatchItems (fetch : List Str → Except ε BatchResp)
    (symbols : List Str) : List RespItem :=
  (pyBatches 9 symbols).flatMap
    (fun batch =>
      match fetch batch with
      | .ok resp => resp.resultList.getD []
      | .error _ => [])

/-- The 3-page mocked source of the pagination test: the first page
(cursor `none`) holds 1000 instruments and cursor `"c1"`, the second
1000 instruments and cursor `"c2"`, the third 400 instruments and no
cursor. -/
def threePageSource : Option Str → PageResp Unit := fun cursor =>
  if cursor = none then
    ⟨some ⟨some (List.replicate 1000 ()), some ['c', '1']⟩⟩
  else if cursor = some ['c', '1'] then
    ⟨some ⟨some (List.replicate 1000 ()), some ['c', '2']⟩⟩
  else if cursor = some ['c', '2'] then
    ⟨some ⟨some (List.replicate 400 ()), none⟩⟩
  else ⟨none⟩

/- ## Theorems -/

/-- Removing `"USDT"` occurrences never lengthens a string. -/
theorem length_removeUSDT_le (s : Str) : (removeUSDT s).length ≤ s.length := by
  induction s using removeUSDT.induct with
  | _ => first
    | (simp only [removeUSDT]; simp; omega)
    | simp_all [removeUSDT]

/-- If `"USDT"` occurs in `s`, `replace('USDT','')` shortens `s` by at
least 4 characters. -/
theorem length_removeUSDT_of_occ (s : Str) :
    usdt <:+: s → (removeUSDT s).length + 4 ≤ s.length := by
  induction s using removeUSDT.induct with
  | case1 rest ih =>
      intro _
      have := length_removeUSDT_le rest
      simp only [removeUSDT.eq_1, List.length_cons]
      omega
  | case2 c rest hne ih =>
      intro h
      obtain ⟨u, v, huv⟩ := h
      rw [removeUSDT.eq_2 c rest hne]
      rcases u with _ | ⟨a, u2⟩
      · exfalso
        simp only [List.nil_append, usdt, List.cons_append] at huv
        obtain ⟨hc, hrest⟩ := List.cons.inj huv
        exact hne v hc.symm hrest.symm
      · simp only [List.cons_append] at huv
        obtain ⟨-, hrest⟩ := List.cons.inj huv
        have hb := ih ⟨u2, v, hrest⟩
        simp only [List.length_cons]
        omega
  | case3 => intro h; simp [usdt] at h

/-- If `s = u ++ "USDT" ++ v` and `"USDT"` also occurs in `v`, then
`replace('USDT','')` shortens `s` by at least 8 characters. -/
theorem length_removeUSDT_two_occ :
    ∀ (n : ℕ) (u v : Str), u.length = n → usdt <:+: v →
      (removeUSDT (u ++ usdt ++ v)).length + 8 ≤ u.length + 4 + v.length := by
  intro n
  induction n using Nat.strong_induction_on with
  | _ n ih =>
    intro u v hlen hv
    rcases u with _ | ⟨c, u2⟩
    · have h2 := length_removeUSDT_of_occ v hv
      simp only [List.nil_append, usdt, List.cons_append, removeUSDT.eq_1]
      simp only [usdt] at h2 ⊢
      simp
      omega
    · by_cases hpre : usdt <+: ((c :: u2) ++ usdt ++ v)
      · rcases u2 with _ | ⟨b, u3⟩
        · obtain ⟨t, ht⟩ := hpre
          simp [usdt] at ht
        · rcases u3 with _ | ⟨d, u4⟩
          · obtain ⟨t, ht⟩ := hpre
            simp [usdt] at ht
          · rcases u4 with _ | ⟨e, u5⟩
            · obtain ⟨t, ht⟩ := hpre
              simp [usdt] at ht
            · obtain ⟨t, ht⟩ := hpre
              simp only [usdt, List.cons_append, List.append_assoc] at ht
              obtain ⟨hc, hb, hd, he, -⟩ := by
                simpa using ht
              subst hc hb hd he
              have hrw : (('U' :: 'S' :: 'D' :: 'T' :: u5) ++ usdt ++ v)
                  = 'U' :: 'S' :: 'D' :: 'T' :: (u5 ++ usdt ++ v) := by simp
              rw [hrw, removeUSDT.eq_1]
              have hih := ih u5.length (by simp at hlen; omega) u5 v rfl hv
              simp only [List.length_append, List.length_cons, usdt] at hih ⊢
              simp at hih ⊢
              omega
      · have hne : ∀ rest1, c = 'U' → (u2 ++ usdt ++ v) = 'S' :: 'D' :: 'T' :: rest1 → False := by
          intro rest1 hc hr
          refine hpre ⟨rest1, ?_⟩
          subst hc
          simp only [List.cons_append]
          rw [hr]
          simp [usdt]
        have hrw : ((c :: u2) ++ usdt ++ v) = c :: (u2 ++ usdt ++ v) := by simp
        rw [hrw, removeUSDT.eq_2 _ _ hne]
        have hih := ih u2.length (by simp at hlen; omega) u2 v rfl hv
        simp only [List.length_append, List.length_cons, usdt] at hih ⊢
        simp at hih ⊢
        omega

/-- C10 (confirmed): the two variants derive the market-cap join key
differently — the multi tracker removes every `"USDT"` occurrence while
the negative tracker strips exactly the last 4 characters — so for any
USDT-suffixed symbol that also contains `"USDT"` before the suffix, the
multi tracker joins under a key different from the suffix-stripped base
asset (both before and after the negative tracker's `upper()`). -/
theorem C10_join_key_divergence (s : Str) (h1 : endsWithUSDT s = true)
    (h2 : usdt <:+: pyStripLast4 s) :
    multi_base_key s ≠ pyStripLast4 s ∧ multi_base_key s ≠ neg_base_key s := by
  have hsuf : usdt <:+ s := List.isSuffixOf_iff_suffix.mp h1
  obtain ⟨a, ha⟩ := hsuf
  have hstrip : pyStripLast4 s = a := by
    have hlen : s.length - 4 = a.length := by
      rw [← ha]; simp [usdt]
    rw [pyStripLast4, hlen, ← ha, List.take_left]
  rw [hstrip] at h2
  obtain ⟨u, w, huw⟩ := h2
  have hs : s = u ++ usdt ++ (w ++ usdt) := by
    rw [← ha, ← huw]; simp
  have hb := length_removeUSDT_two_occ u.length u (w ++ usdt) rfl ⟨w, [], by simp⟩
  have hlen_a : a.length = u.length + 4 + w.length := by
    rw [← huw]; simp [usdt]; omega
  have hkey : (multi_base_key s).length + 4 ≤ a.length := by
    rw [multi_base_key, hs]
    simp only [List.length_append, usdt, List.length_cons] at hb ⊢
    simp at hb ⊢
    omega
  have ha4 : 4 ≤ a.length := by omega
  refine ⟨fun heq => ?_, fun heq => ?_⟩
  · have := congrArg List.length heq
    rw [hstrip] at this
    omega
  · have := congrArg List.length heq
    rw [neg_base_key, hstrip, List.length_map] at this
    omega

/-- Witness for C10 at the concrete symbol `"USDTUSDT"`. -/
theorem C10_join_key_divergence_witness :
    endsWithUSDT "USDTUSDT".toList = true ∧ usdt <:+: pyStripLast4 "USDTUSDT".toList ∧
      multi_base_key "USDTUSDT".toList ≠ pyStripLast4 "USDTUSDT".toList ∧
      multi_base_key "USDTUSDT".toList ≠ neg_base_key "USDTUSDT".toList :=
  ⟨by decide, by decide,
    C10_join_key_divergence "USDTUSDT".toList (by decide) (by decide)⟩

/-- One loop iteration of the catalog loader when the response carries a
truthy continuation cursor: the page is accumulated and the loop
continues at that cursor. -/
theorem loader_step (fetch : Option Str → PageResp ι) (fuel : ℕ) (cursor : Option Str)
    (c : Str) (h : pageCursor (fetch cursor) = some c) :
    bybit_get_all_linear_instruments fetch (fuel + 1) cursor =
      (pageItems (fetch cursor) ++ (bybit_get_all_linear_instruments fetch fuel (some c)).1,
        (bybit_get_all_linear_instruments fetch fuel (some c)).2 + 1) := by
  simp only [bybit_get_all_linear_instruments, h]

/-- One loop iteration of the catalog loader when the response carries no
truthy cursor: the loop stops after this fetch. -/
theorem loader_stop (fetch : Option Str → PageResp ι) (fuel : ℕ) (cursor : Option Str)
    (h : pageCursor (fetch cursor) = none) :
    bybit_get_all_linear_instruments fetch (fuel + 1) cursor = (pageItems (fetch cursor), 1) := by
  simp only [bybit_get_all_linear_instruments, h]

/-- C6 (confirmed): the catalog loader follows the continuation cursor and
stops exactly when a response carries none; fed the 3-page source with
pages of 1000, 1000 and 400 instruments (only the last without a cursor),
it performs exactly 3 page fetches and returns exactly 2400 instruments,
for any fuel allowance of at least 3 iterations. -/
theorem C6_pagination (fuel : ℕ) (hfuel : 3 ≤ fuel) :
    (bybit_get_all_linear_instruments threePageSource fuel none).2 = 3 ∧
      (bybit_get_all_linear_instruments threePageSource fuel none).1.length = 2400 := by
  obtain ⟨k, rfl⟩ : ∃ k, fuel = k + 3 := ⟨fuel - 3, by omega⟩
  have h1 : pageCursor (threePageSource none) = some ['c', '1'] := rfl
  have h2 : pageCursor (threePageSource (some ['c', '1'])) = some ['c', '2'] := rfl
  have h3 : pageCursor (threePageSource (some ['c', '2'])) = none := rfl
  rw [show k + 3 = (k + 2) + 1 from rfl, loader_step _ _ _ _ h1,
    loader_step _ _ _ _ h2, loader_stop _ _ _ h3]
  refine ⟨rfl, ?_⟩
  have p1 : pageItems (threePageSource none) = List.replicate 1000 () := rfl
  have p2 : pageItems (threePageSource (some ['c', '1'])) = List.replicate 1000 () := rfl
  have p3 : pageItems (threePageSource (some ['c', '2'])) = List.replicate 400 () := rfl
  rw [p1, p2, p3]
  dsimp only
  rw [List.length_append, List.length_append, List.length_replicate, List.length_replicate]

/-- Witness for C6 at the minimal fuel allowance 3. -/
theorem C6_pagination_witness :
    3 ≤ 3 ∧
      ((bybit_get_all_linear_instruments threePageSource 3 none).2 = 3 ∧
        (bybit_get_all_linear_instruments threePageSource 3 none).1.length = 2400) :=
  ⟨by decide, C6_pagination 3 (by decide)⟩

/-- The number of slices produced by step-`k+1` slicing is the ceiling
`(n + k) / (k + 1)` of `n / (k+1)`. -/
theorem pyBatches_length (k : ℕ) (l : List α) :
    (pyBatches k l).length = (l.length + k) / (k + 1) := by
  induction l using pyBatches.induct k with
  | case1 =>
      simp only [pyBatches, List.length_nil, Nat.zero_add]
      exact (Nat.div_eq_of_lt (by omega)).symm
  | case2 x xs ih =>
      simp only [pyBatches, List.length_cons]
      rw [ih, List.length_drop]
      have h1 : xs.length + 1 + k = xs.length + (k + 1) := by omega
      rw [h1, Nat.add_div_right _ (by omega)]
      by_cases h : k ≤ xs.length
      · have : xs.length - k + k = xs.length := by omega
        rw [this]
      · have h2 : xs.length - k + k = k := by omega
        rw [h2, Nat.div_eq_of_lt (by omega), Nat.div_eq_of_lt (by omega)]

/-- Every slice produced by step-`k+1` slicing has at most `k+1`
elements. -/
theorem pyBatches_batch_le (k : ℕ) (l : List α) :
    ∀ b ∈ pyBatches k l, b.length ≤ k + 1 := by
  induction l using pyBatches.induct k with
  | case1 => simp [pyBatches]
  | case2 x xs ih =>
      intro b hb
      simp only [pyBatches, List.mem_cons] at hb
      rcases hb with rfl | hb
      · simp only [List.length_cons, List.length_take]
        omega
      · exact ih b hb

/-- C7 (corrected): both variants fetch the coin directory exactly once
per run; the negative tracker then issues exactly `ceil(n/30)` market
fetches of at most 30 ids each, but the multi tracker batches by 250, so
it issues `ceil(n/250)` fetches of up to 250 ids each. -/
theorem C7_batching_amended (coin_ids target_ids : List Str) :
    ((neg_cg_request_count coin_ids).1 = 1 ∧
      (neg_cg_request_count coin_ids).2 = (coin_ids.length + 29) / 30 ∧
      (∀ b ∈ neg_cg_market_batches coin_ids, b.length ≤ 30)) ∧
    ((multi_cg_request_count target_ids).1 = 1 ∧
      (multi_cg_request_count target_ids).2 = (target_ids.length + 249) / 250 ∧
      (∀ b ∈ multi_cg_market_batches target_ids, b.length ≤ 250)) := by
  refine ⟨⟨rfl, ?_, ?_⟩, ⟨rfl, ?_, ?_⟩⟩
  · exact pyBatches_length 29 coin_ids
  · exact pyBatches_batch_le 29 coin_ids
  · exact pyBatches_length 249 target_ids
  · exact pyBatches_batch_le 249 target_ids

/-- Counterexample for C7 as stated: with 31 resolved ids the multi
tracker issues 1 market fetch covering all 31 ids, not the claimed
`ceil(31/30) = 2` fetches of at most 30 ids. -/
theorem C7_batching_counterexample :
    (multi_cg_request_count (List.replicate 31 ['x'])).2 = 1 ∧
      (31 + 29) / 30 = 2 ∧
      multi_cg_market_batches (List.replicate 31 ['x']) = [List.replicate 31 ['x']] ∧
      (List.replicate 31 ['x']).length = 31 := by
  have hb : multi_cg_market_batches (List.replicate 31 ['x']) = [List.replicate 31 ['x']] := by
    simp [multi_cg_market_batches, pyBatches, List.replicate_succ]
  refine ⟨?_, by norm_num, hb, by simp⟩
  show (multi_cg_market_batches (List.replicate 31 ['x'])).length = 1
  rw [hb]
  rfl

/-- Witness for C7 (amended) at a concrete 31-id input. -/
theorem C7_batching_witness :
    ((neg_cg_request_count (List.replicate 31 ['y'])).1 = 1 ∧
      (neg_cg_request_count (List.replicate 31 ['y'])).2 = (31 + 29) / 30 ∧
      (∀ b ∈ neg_cg_market_batches (List.replicate 31 ['y']), b.length ≤ 30)) ∧
    ((multi_cg_request_count (List.replicate 31 ['y'])).1 = 1 ∧
      (multi_cg_request_count (List.replicate 31 ['y'])).2 = (31 + 249) / 250 ∧
      (∀ b ∈ multi_cg_market_batches (List.replicate 31 ['y']), b.length ≤ 250)) := by
  have h := C7_batching_amended (List.replicate 31 ['y']) (List.replicate 31 ['y'])
  simpa using h

/-- Folding directory entries none of which match `k` leaves the dict
unchanged at `k` (multi-tracker comprehension). -/
theorem multi_fold_no_match (coins : List CGCoin) (m : Str → Option Str) (k : Str)
    (h : ∀ c ∈ coins, c.symbol.map Char.toLower ≠ k) :
    (coins.foldl (fun m c => dinsert m (c.symbol.map Char.toLower) c.id) m) k = m k := by
  induction coins generalizing m with
  | nil => rfl
  | cons c cs ih =>
      rw [List.foldl_cons, ih _ (fun c2 hc2 => h c2 (List.mem_cons_of_mem c hc2))]
      have hck := h c (List.mem_cons_self c cs)
      simp only [dinsert]
      rw [if_neg (fun h2 => hck h2.symm)]

/-- Folding directory entries none of which match `k` leaves the dict
unchanged at `k` (negative-tracker loop). -/
theorem neg_fold_no_match (coins : List CGCoin) (symbols : List Str)
    (m : Str → Option Str) (k : Str)
    (h : ∀ c ∈ coins, c.symbol.map Char.toLower ≠ k) :
    (coins.foldl
      (fun m c =>
        let sym := c.symbol.map Char.toLower
        if sym ∈ symbols then dinsert m sym c.id else m) m) k = m k := by
  induction coins generalizing m with
  | nil => rfl
  | cons c cs ih =>
      rw [List.foldl_cons, ih _ (fun c2 hc2 => h c2 (List.mem_cons_of_mem c hc2))]
      have hck := h c (List.mem_cons_self c cs)
      by_cases hmem : c.symbol.map Char.toLower ∈ symbols
      · simp only [hmem, if_pos, dinsert]
        rw [if_neg (fun h2 => hck h2.symm)]
      · simp [hmem]

/-- C4 (corrected): both resolvers build the ticker-to-id dict with
overwriting assignment, so a ticker maps to the identifier of the LAST
matching directory entry (the claim says the first): if entry `c` matches
`k` and no later entry does, the resolved id is `c.id`, whatever came
before. -/
theorem C4_last_match_wins (pre post : List CGCoin) (c : CGCoin) (symbols : List Str)
    (k : Str) (hk : k = c.symbol.map Char.toLower)
    (hpost : ∀ c2 ∈ post, c2.symbol.map Char.toLower ≠ k) :
    multi_symbol_to_id (pre ++ c :: post) k = some c.id ∧
      (k ∈ symbols → neg_symbol_to_id (pre ++ c :: post) symbols k = some c.id) := by
  constructor
  · rw [multi_symbol_to_id, List.foldl_append, List.foldl_cons,
      multi_fold_no_match post _ k hpost]
    simp [dinsert, hk]
  · intro hmem
    rw [neg_symbol_to_id, List.foldl_append, List.foldl_cons,
      neg_fold_no_match post symbols _ k hpost]
    simp only [← hk, hmem, if_pos]
    simp [dinsert]

/-- Counterexample for C4 as stated: with two directory entries sharing
ticker `"abc"`, both resolvers return the id of the second (last) entry,
not the first encountered match. -/
theorem C4_first_match_counterexample :
    multi_symbol_to_id
        [⟨['a', 'b', 'c'], ['i', 'd', '1']⟩, ⟨['a', 'b', 'c'], ['i', 'd', '2']⟩]
        ['a', 'b', 'c'] = some ['i', 'd', '2'] ∧
      neg_symbol_to_id
        [⟨['a', 'b', 'c'], ['i', 'd', '1']⟩, ⟨['a', 'b', 'c'], ['i', 'd', '2']⟩]
        [['a', 'b', 'c']] ['a', 'b', 'c'] = some ['i', 'd', '2'] ∧
      (['i', 'd', '2'] : Str) ≠ ['i', 'd', '1'] := by
  refine ⟨?_, ?_, by decide⟩ <;> decide

/-- Witness for C4 (amended) at a concrete two-entry directory. -/
theorem C4_last_match_wins_witness :
    (['a', 'b', 'c'] : Str) = (⟨['a', 'b', 'c'], ['i', 'd', '2']⟩ : CGCoin).symbol.map Char.toLower ∧
      multi_symbol_to_id
        [⟨['a', 'b', 'c'], ['i', 'd', '1']⟩, ⟨['a', 'b', 'c'], ['i', 'd', '2']⟩]
        ['a', 'b', 'c'] = some ['i', 'd', '2'] ∧
      neg_symbol_to_id
        [⟨['a', 'b', 'c'], ['i', 'd', '1']⟩, ⟨['a', 'b', 'c'], ['i', 'd', '2']⟩]
        [['a', 'b', 'c']] ['a', 'b', 'c'] = some ['i', 'd', '2'] := by
  have h := C4_last_match_wins [⟨['a', 'b', 'c'], ['i', 'd', '1']⟩] []
    ⟨['a', 'b', 'c'], ['i', 'd', '2']⟩ [['a', 'b', 'c']] ['a', 'b', 'c']
    (by decide) (by simp)
  exact ⟨by decide, h.1, h.2 (by decide)⟩

/-- Counterexample for C3 as stated: when all three attempts return HTTP
429, the multi tracker's fetcher sleeps 30, 60 and 90 seconds and then
falls out of the loop, silently returning the success value `{}` instead
of surfacing an error. -/
theorem C3_retry_counterexample :
    multi_http_get (β := ℕ) (ε := ℕ) (fun _ => .rate429) =
      (.value none, [30, 60, 90]) := by
  simp [multi_http_get, multi_http_get_from]

/-- C3 (corrected): the multi tracker's fetcher retries 429 with linear
backoff `(attempt+1) * 30` and other failures with a fixed 2s delay, and
surfaces the final error after 3 failed attempts — but three 429s end in
a silent empty-dict success; the negative tracker's fetcher performs no
retry at all (a 429 raises immediately). -/
theorem C3_retry_amended :
    (∀ resp : ℕ → HttpOutcome ℕ ℕ,
      resp 0 = .rate429 → resp 1 = .rate429 → resp 2 = .rate429 →
        multi_http_get resp = (.value none, [30, 60, 90])) ∧
    (∀ (resp : ℕ → HttpOutcome ℕ ℕ) (e₀ e₁ e₂ : ℕ),
      resp 0 = .exc e₀ → resp 1 = .exc e₁ → resp 2 = .exc e₂ →
        multi_http_get resp = (.raised e₂, [2, 2])) ∧
    (∀ (resp : ℕ → HttpOutcome ℕ ℕ) (b : ℕ),
      resp 0 = .rate429 → resp 1 = .ok b →
        multi_http_get resp = (.value (some b), [30])) ∧
    (∀ b : ℕ, neg_http_get (ε := ℕ) (.ok b) = .value b) ∧
    (neg_http_get (β := ℕ) (ε := ℕ) .rate429 = .raised none) ∧
    (∀ e : ℕ, neg_http_get (β := ℕ) (.exc e) = .raised (some e)) := by
  refine ⟨?_, ?_, ?_, fun b => rfl, rfl, fun e => rfl⟩
  · intro resp h0 h1 h2
    simp [multi_http_get, multi_http_get_from, h0, h1, h2]
  · intro resp e₀ e₁ e₂ h0 h1 h2
    simp [multi_http_get, multi_http_get_from, h0, h1, h2]
  · intro resp b h0 h1
    simp [multi_http_get, multi_http_get_from, h0, h1]

/-- Witness for C3 (amended) at concrete outcome sequences. -/
theorem C3_retry_amended_witness :
    multi_http_get (β := ℕ) (ε := ℕ) (fun _ => .rate429) = (.value none, [30, 60, 90]) ∧
      multi_http_get (β := ℕ) (fun n => .exc n) = (.raised 2, [2, 2]) ∧
      multi_http_get (β := ℕ) (ε := ℕ) (fun n => if n = 0 then .rate429 else .ok 7) = (.value (some 7), [30]) ∧
      neg_http_get (ε := ℕ) (.ok 5) = .value 5 ∧
      neg_http_get (β := ℕ) (ε := ℕ) .rate429 = .raised none ∧
      neg_http_get (β := ℕ) (.exc 9) = .raised (some 9) :=
  ⟨C3_retry_amended.1 _ rfl rfl rfl,
    C3_retry_amended.2.1 _ 0 1 2 rfl rfl rfl,
    C3_retry_amended.2.2.1 _ 7 rfl rfl,
    C3_retry_amended.2.2.2.1 5,
    C3_retry_amended.2.2.2.2.1,
    C3_retry_amended.2.2.2.2.2 9⟩

/-- Folding the per-batch insert over all batches equals folding the
concatenated items of the successful batches: failed batches are
identity steps. -/
theorem foldl_batches_eq (fetch : List Str → Except ε BatchResp)
    (L : List (List Str)) (acc : Str → Option RespItem) :
    L.foldl (fun m batch =>
      match fetch batch with
      | .ok resp => (resp.resultList.getD []).foldl insertItem m
      | .error _ => m) acc
    = (L.flatMap (fun batch =>
      match fetch batch with
      | .ok resp => resp.resultList.getD []
      | .error _ => [])).foldl insertItem acc := by
  induction L generalizing acc with
  | nil => rfl
  | cons b L ih =>
      rw [List.foldl_cons, ih, List.flatMap_cons, List.foldl_append]
      congr 1
      cases fetch b <;> rfl

/-- Inserting items none of which carry key `s` leaves the dict unchanged
at `s`. -/
theorem foldl_insertItem_no_key (items : List RespItem) (acc : Str → Option RespItem)
    (s : Str) (h : ∀ it ∈ items, itemKey it ≠ some s) :
    (items.foldl insertItem acc) s = acc s := by
  induction items generalizing acc with
  | nil => rfl
  | cons it items ih =>
      rw [List.foldl_cons, ih _ (fun it2 h2 => h it2 (List.mem_cons_of_mem it h2))]
      have hk := h it (List.mem_cons_self it items)
      rw [insertItem]
      cases hik : itemKey it with
      | none => rfl
      | some k =>
          simp only [dinsert]
          have hsk : s ≠ k := fun h2 => hk (by rw [hik, h2])
          rw [if_neg hsk]

/-- C8 (confirmed): the funding/ticker batch loaders are total (every
batch failure is caught), a failed batch contributes no entries while all
remaining batches are still processed, and the resulting dict is built
from exactly the items of the successful batches; a symbol appearing in
no successful batch is absent from the result. -/
theorem C8_partial_batch_failure (fetch : List Str → Except ε BatchResp)
    (symbols : List Str) :
    bybit_batch_loader fetch symbols =
      (successfulBatchItems fetch symbols).foldl insertItem (fun _ => none) ∧
    (∀ s : Str, (∀ it ∈ successfulBatchItems fetch symbols, itemKey it ≠ some s) →
      bybit_batch_loader fetch symbols s = none) := by
  have h1 : bybit_batch_loader fetch symbols =
      (successfulBatchItems fetch symbols).foldl insertItem (fun _ => none) :=
    foldl_batches_eq fetch (pyBatches 9 symbols) _
  refine ⟨h1, fun s hs => ?_⟩
  rw [h1]
  exact foldl_insertItem_no_key _ _ s hs

/-- Witness for C8 at a concrete one-batch input. -/
theorem C8_partial_batch_failure_witness :
    bybit_batch_loader (fun _ => (.ok ⟨some [⟨some ['a'], 1⟩]⟩ : Except ℕ BatchResp)) [['a']] =
      (successfulBatchItems (fun _ => (.ok ⟨some [⟨some ['a'], 1⟩]⟩ : Except ℕ BatchResp))
        [['a']]).foldl insertItem (fun _ => none) ∧
    bybit_batch_loader (fun _ => (.ok ⟨some [⟨some ['a'], 1⟩]⟩ : Except ℕ BatchResp)) [['a']] ['z'] = none := by
  have h := C8_partial_batch_failure
    (fun _ => (.ok ⟨some [⟨some ['a'], 1⟩]⟩ : Except ℕ BatchResp)) [['a']]
  refine ⟨h.1, h.2 ['z'] ?_⟩
  intro it hit
  simp only [successfulBatchItems, pyBatches] at hit
  simp at hit
  rcases hit with rfl | ⟨-, rfl⟩ <;> decide

/-- Association-list lookup finds the unique binding when keys are
distinct (the Python dict invariant). -/
theorem dget_eq_of_mem_nodup (m : List (Str × β)) (k : Str) (v : β)
    (hnd : (m.map Prod.fst).Nodup) (hmem : (k, v) ∈ m) :
    dget m k = some v := by
  induction m with
  | nil => simp at hmem
  | cons p m ih =>
      simp only [List.map_cons, List.nodup_cons] at hnd
      rcases List.mem_cons.mp hmem with heq | hmem2
      · rw [← heq, dget, List.find?_cons_of_pos _ (by simp)]
        rfl
      · have hpk : p.1 ≠ k := fun he => hnd.1 (he ▸ List.mem_map_of_mem Prod.fst hmem2)
        rw [dget, List.find?_cons_of_neg _ (by simpa using hpk)]
        exact ih hnd.2 hmem2

/-- Every entry of the negative tracker's `results` carries the symbol it
was built from — a member of `negative_symbols` — and the funding rate
re-read from `funding_data` for that symbol. -/
theorem neg_results_mem_charac (fd : List (Str × FundingInfo))
    (td : List (Str × TickerInfo)) (mc : List (Str × CoinMarketData))
    (skip : Bool) (minCap : ℚ) (e : NegEntry)
    (he : e ∈ neg_results fd td mc skip minCap) :
    e.symbol ∈ negative_symbols fd ∧
      e.fundingRate = ((dget fd e.symbol).getD ⟨none, none⟩).fundingRate.getD 0 := by
  rw [neg_results] at he
  obtain ⟨s, hs, hf⟩ := List.mem_filterMap.mp he
  simp only at hf
  cases skip with
  | true =>
      simp only [if_pos] at hf
      obtain rfl := Option.some.inj hf
      exact ⟨hs, rfl⟩
  | false =>
      simp only [Bool.false_eq_true, if_false] at hf
      split at hf
      · exact absurd hf (by simp)
      · obtain rfl := Option.some.inj hf
        exact ⟨hs, rfl⟩

/-- A symbol in `negative_symbols` has a strictly negative coerced
funding rate in `funding_data` (keys assumed distinct). -/
theorem negative_symbols_mem (fd : List (Str × FundingInfo)) (s : Str)
    (hnd : (fd.map Prod.fst).Nodup) (hs : s ∈ negative_symbols fd) :
    ((dget fd s).getD ⟨none, none⟩).fundingRate.getD 0 < 0 := by
  rw [negative_symbols] at hs
  obtain ⟨p, hp, hps⟩ := List.mem_map.mp hs
  have hpf := List.mem_filter.mp hp
  have hd : dget fd s = some p.2 :=
    dget_eq_of_mem_nodup fd s p.2 hnd (by rw [← hps]; exact hpf.1)
  rw [hd]
  simpa using hpf.2

/-- C9 (confirmed): every entry of the negative tracker's final output
has a strictly negative funding rate — only symbols passing the strict
`rate < 0` pre-filter survive joining, filtering, sorting and
truncation. -/
theorem C9_output_all_negative (fd : List (Str × FundingInfo))
    (td : List (Str × TickerInfo)) (mc : List (Str × CoinMarketData))
    (skip : Bool) (minCap : ℚ) (top : ℕ)
    (hnd : (fd.map Prod.fst).Nodup) :
    ∀ e ∈ neg_output fd td mc skip minCap top, e.fundingRate < 0 := by
  intro e he
  have he2 : e ∈ neg_results fd td mc skip minCap :=
    List.mem_mergeSort.mp ((List.take_sublist _ _).subset he)
  obtain ⟨hsym, hrate⟩ := neg_results_mem_charac fd td mc skip minCap e he2
  rw [hrate]
  exact negative_symbols_mem fd e.symbol hnd hsym

/-- Witness for C9 at a concrete one-symbol run. -/
theorem C9_output_all_negative_witness :
    (([(['A', 'A', 'A', 'U', 'S', 'D', 'T'],
        (⟨some (-1), none⟩ : FundingInfo))].map Prod.fst).Nodup) ∧
    (⟨['A', 'A', 'A', 'U', 'S', 'D', 'T'], ['A', 'A', 'A'], -1,
        ((0 : ℚ) : WithTop ℚ), 0, 0⟩ : NegEntry) ∈
      neg_output [(['A', 'A', 'A', 'U', 'S', 'D', 'T'], ⟨some (-1), none⟩)]
        [] [] false 100000000 5 ∧
    (⟨['A', 'A', 'A', 'U', 'S', 'D', 'T'], ['A', 'A', 'A'], -1,
        ((0 : ℚ) : WithTop ℚ), 0, 0⟩ : NegEntry).fundingRate < 0 := by
  have hres : neg_results
      [(['A', 'A', 'A', 'U', 'S', 'D', 'T'], ⟨some (-1), none⟩)]
      [] [] false 100000000 =
      [⟨['A', 'A', 'A', 'U', 'S', 'D', 'T'], ['A', 'A', 'A'], -1,
        ((0 : ℚ) : WithTop ℚ), 0, 0⟩] := by decide
  have hout : neg_output
      [(['A', 'A', 'A', 'U', 'S', 'D', 'T'], ⟨some (-1), none⟩)]
      [] [] false 100000000 5 =
      [⟨['A', 'A', 'A', 'U', 'S', 'D', 'T'], ['A', 'A', 'A'], -1,
        ((0 : ℚ) : WithTop ℚ), 0, 0⟩] := by
    rw [neg_output, hres, List.mergeSort_singleton]
    rfl
  have hmem : (⟨['A', 'A', 'A', 'U', 'S', 'D', 'T'], ['A', 'A', 'A'], -1,
      ((0 : ℚ) : WithTop ℚ), 0, 0⟩ : NegEntry) ∈
      neg_output [(['A', 'A', 'A', 'U', 'S', 'D', 'T'], ⟨some (-1), none⟩)]
        [] [] false 100000000 5 := by
    rw [hout]
    exact List.mem_singleton.mpr rfl
  exact ⟨by simp, hmem,
    C9_output_all_negative _ [] [] false 100000000 5 (by simp) _ hmem⟩

/-- A truncated merge sort is sorted, no longer than the cutoff, and the
whole sorted list when the input already fits. -/
theorem mergeSort_take_props (le : α → α → Bool)
    (htrans : ∀ a b c, le a b = true → le b c = true → le a c = true)
    (htot : ∀ a b, (le a b || le b a) = true) (l : List α) (n : ℕ) :
    ((l.mergeSort le).take n).Pairwise (fun a b => le a b = true) ∧
    ((l.mergeSort le).take n).length ≤ n ∧
    (l.length ≤ n → (l.mergeSort le).take n = l.mergeSort le) := by
  refine ⟨List.Pairwise.sublist (List.take_sublist n _)
    (List.sorted_mergeSort htrans htot l), ?_, fun h => ?_⟩
  · simp [List.length_take]
  · exact List.take_of_length_le (by rw [List.length_mergeSort]; exact h)

/-- C5 (confirmed): in both variants the "most negative" output is
sorted ascending and the "most positive" output descending by funding
rate, each output has length at most the configured top count, and when
fewer entries qualify than the top count the output is the whole sorted
qualifying sequence (each output is by construction the `top`-prefix of
the sorted qualifying sequence). -/
theorem C5_rankings_sorted_truncated :
    (∀ (tickers : List BybitTicker) (cg : Str → Option CGMeta) (minCap : ℚ) (top : ℕ),
      (multi_pos_output tickers cg minCap top).Pairwise
        (fun a b => b.fundingRate ≤ a.fundingRate) ∧
      (multi_neg_output tickers cg minCap top).Pairwise
        (fun a b => a.fundingRate ≤ b.fundingRate) ∧
      (multi_pos_output tickers cg minCap top).length ≤ top ∧
      (multi_neg_output tickers cg minCap top).length ≤ top ∧
      ((multi_processed tickers cg minCap).length ≤ top →
        multi_pos_output tickers cg minCap top =
          (multi_processed tickers cg minCap).mergeSort
            (fun a b => decide (b.fundingRate ≤ a.fundingRate)) ∧
        multi_neg_output tickers cg minCap top =
          (multi_processed tickers cg minCap).mergeSort
            (fun a b => decide (a.fundingRate ≤ b.fundingRate)))) ∧
    (∀ (fd : List (Str × FundingInfo)) (td : List (Str × TickerInfo))
        (mc : List (Str × CoinMarketData)) (skip : Bool) (minCap : ℚ) (top : ℕ),
      (neg_output fd td mc skip minCap top).Pairwise
        (fun a b => a.fundingRate ≤ b.fundingRate) ∧
      (neg_output fd td mc skip minCap top).length ≤ top ∧
      ((neg_results fd td mc skip minCap).length ≤ top →
        neg_output fd td mc skip minCap top =
          (neg_results fd td mc skip minCap).mergeSort
            (fun a b => decide (a.fundingRate ≤ b.fundingRate)))) := by
  constructor
  · intro tickers cg minCap top
    have hpos := mergeSort_take_props
      (fun (a b : MultiEntry) => decide (b.fundingRate ≤ a.fundingRate))
      (fun a b c h1 h2 => by
        simp only [decide_eq_true_eq] at *
        exact le_trans h2 h1)
      (fun a b => by simp [le_total]) (multi_processed tickers cg minCap) top
    have hneg := mergeSort_take_props
      (fun (a b : MultiEntry) => decide (a.fundingRate ≤ b.fundingRate))
      (fun a b c h1 h2 => by
        simp only [decide_eq_true_eq] at *
        exact le_trans h1 h2)
      (fun a b => by simp [le_total]) (multi_processed tickers cg minCap) top
    exact ⟨hpos.1.imp (fun h => of_decide_eq_true h),
      hneg.1.imp (fun h => of_decide_eq_true h),
      hpos.2.1, hneg.2.1, fun h => ⟨hpos.2.2 h, hneg.2.2 h⟩⟩
  · intro fd td mc skip minCap top
    have hneg := mergeSort_take_props
      (fun (a b : NegEntry) => decide (a.fundingRate ≤ b.fundingRate))
      (fun a b c h1 h2 => by
        simp only [decide_eq_true_eq] at *
        exact le_trans h1 h2)
      (fun a b => by simp [le_total]) (neg_results fd td mc skip minCap) top
    exact ⟨hneg.1.imp (fun h => of_decide_eq_true h), hneg.2.1, hneg.2.2⟩

/-- Witness for C5 at concrete one-entry runs of both variants. -/
theorem C5_rankings_sorted_truncated_witness :
    ((multi_pos_output [⟨['B', 'U', 'S', 'D', 'T'], some 2, some 1, some 3⟩]
        (fun _ => some ⟨['B'], 200⟩) 100 2).Pairwise
      (fun a b => b.fundingRate ≤ a.fundingRate) ∧
      (multi_pos_output [⟨['B', 'U', 'S', 'D', 'T'], some 2, some 1, some 3⟩]
        (fun _ => some ⟨['B'], 200⟩) 100 2).length ≤ 2 ∧
      multi_pos_output [⟨['B', 'U', 'S', 'D', 'T'], some 2, some 1, some 3⟩]
          (fun _ => some ⟨['B'], 200⟩) 100 2 =
        (multi_processed [⟨['B', 'U', 'S', 'D', 'T'], some 2, some 1, some 3⟩]
          (fun _ => some ⟨['B'], 200⟩) 100).mergeSort
          (fun a b => decide (b.fundingRate ≤ a.fundingRate))) ∧
    ((neg_output [(['A', 'A', 'A', 'U', 'S', 'D', 'T'], ⟨some (-1), none⟩)]
        [] [] false 100 5).Pairwise (fun a b => a.fundingRate ≤ b.fundingRate) ∧
      (neg_output [(['A', 'A', 'A', 'U', 'S', 'D', 'T'], ⟨some (-1), none⟩)]
        [] [] false 100 5).length ≤ 5 ∧
      neg_output [(['A', 'A', 'A', 'U', 'S', 'D', 'T'], ⟨some (-1), none⟩)]
          [] [] false 100 5 =
        (neg_results [(['A', 'A', 'A', 'U', 'S', 'D', 'T'], ⟨some (-1), none⟩)]
          [] [] false 100).mergeSort
          (fun a b => decide (a.fundingRate ≤ b.fundingRate))) := by
  have h1 := C5_rankings_sorted_truncated.1
    [⟨['B', 'U', 'S', 'D', 'T'], some 2, some 1, some 3⟩]
    (fun _ => some ⟨['B'], 200⟩) 100 2
  have h2 := C5_rankings_sorted_truncated.2
    [(['A', 'A', 'A', 'U', 'S', 'D', 'T'], ⟨some (-1), none⟩)] [] [] false 100 5
  have hlen1 : (multi_processed [⟨['B', 'U', 'S', 'D', 'T'], some 2, some 1, some 3⟩]
      (fun _ => some ⟨['B'], 200⟩) 100).length ≤ 2 := by decide
  have hlen2 : (neg_results [(['A', 'A', 'A', 'U', 'S', 'D', 'T'], ⟨some (-1), none⟩)]
      [] [] false 100).length ≤ 5 := by decide
  exact ⟨⟨h1.1, h1.2.2.1, (h1.2.2.2.2 hlen1).1⟩, ⟨h2.1, h2.2.1, h2.2.2 hlen2⟩⟩

/-- Counterexample for C1 as stated: in the multi tracker an instrument
whose market cap is unknown (absent from the CoinGecko metadata) is
excluded from the rankings when the floor is positive, because the
fallback `mcap = 0` fails `mcap < min_cap`. -/
theorem C1_unknown_cap_counterexample :
    endsWithUSDT ['A', 'A', 'A', 'U', 'S', 'D', 'T'] = true ∧
      (fun _ => (none : Option CGMeta)) (multi_base_key ['A', 'A', 'A', 'U', 'S', 'D', 'T']) = none ∧
      multi_processed [⟨['A', 'A', 'A', 'U', 'S', 'D', 'T'], some 1, some (-1), some 5⟩]
        (fun _ => none) 100000000 = [] := by
  refine ⟨by decide, rfl, by decide⟩

/-- C1 (corrected): with filtering enabled, the negative tracker excludes
exactly on a truthy (nonzero) resolved cap below the floor, so every
output entry has cap `0` (unknown or zero) or cap at least the floor —
but the multi tracker conflates unknown with `0`: every surviving entry
has resolved cap at least the floor, and an unknown-cap instrument is
dropped whenever the floor is positive. -/
theorem C1_cap_filter_amended :
    (∀ (fd : List (Str × FundingInfo)) (td : List (Str × TickerInfo))
        (mc : List (Str × CoinMarketData)) (minCap : ℚ) (top : ℕ),
      ∀ e ∈ neg_output fd td mc false minCap top,
        ∃ q : ℚ, e.marketCapUSD = (q : WithTop ℚ) ∧ (q = 0 ∨ minCap ≤ q)) ∧
    (∀ (tickers : List BybitTicker) (cg : Str → Option CGMeta) (minCap : ℚ),
      ∀ e ∈ multi_processed tickers cg minCap, minCap ≤ e.marketCapUSD) ∧
    (∀ (t : BybitTicker) (cg : Str → Option CGMeta) (minCap : ℚ),
      cg (multi_base_key t.symbol) = none → 0 < minCap →
        multi_processed [t] cg minCap = []) := by
  refine ⟨?_, ?_, ?_⟩
  · intro fd td mc minCap top e he
    have he2 : e ∈ neg_results fd td mc false minCap :=
      List.mem_mergeSort.mp ((List.take_sublist _ _).subset he)
    rw [neg_results] at he2
    obtain ⟨s, hs, hf⟩ := List.mem_filterMap.mp he2
    simp only [Bool.false_eq_true, if_false] at hf
    split at hf
    · exact absurd hf (by simp)
    · next hcond =>
        obtain rfl := Option.some.inj hf
        refine ⟨_, rfl, ?_⟩
        rcases not_and_or.mp hcond with h0 | hlt
        · exact Or.inl (not_not.mp h0)
        · exact Or.inr (not_lt.mp hlt)
  · intro tickers cg minCap e he
    rw [multi_processed] at he
    obtain ⟨t, ht, hf⟩ := List.mem_filterMap.mp he
    simp only at hf
    split at hf
    · exact absurd hf (by simp)
    · next hlt =>
        obtain rfl := Option.some.inj hf
        exact not_lt.mp hlt
  · intro t cg minCap hnone hpos
    rw [multi_processed]
    cases hE : endsWithUSDT t.symbol with
    | false => simp [hE]
    | true => simp [hE, hnone, defaultMeta, hpos]

/-- Witness for C1 (amended) at concrete runs of both variants. -/
theorem C1_cap_filter_amended_witness :
    (∀ e ∈ neg_output [(['A', 'A', 'A', 'U', 'S', 'D', 'T'], ⟨some (-1), none⟩)]
        [] [] false 100000000 5,
      ∃ q : ℚ, e.marketCapUSD = (q : WithTop ℚ) ∧ (q = 0 ∨ (100000000 : ℚ) ≤ q)) ∧
    (∀ e ∈ multi_processed [⟨['B', 'U', 'S', 'D', 'T'], some 2, some 1, some 3⟩]
        (fun _ => some ⟨['B'], 200000000⟩) 100000000,
      (100000000 : ℚ) ≤ e.marketCapUSD) ∧
    multi_processed [⟨['A', 'A', 'A', 'U', 'S', 'D', 'T'], some 1, some (-1), some 5⟩]
      (fun _ => none) 100000000 = [] :=
  ⟨C1_cap_filter_amended.1 _ [] [] 100000000 5,
    C1_cap_filter_amended.2.1 _ _ 100000000,
    C1_cap_filter_amended.2.2 _ (fun _ => none) 100000000 rfl (by norm_num)⟩

/-- Counterexample for C2 as stated: a multi-tracker instrument whose
ticker lacks the funding-rate field is ranked with rate exactly `0` and
appears in the output. -/
theorem C2_missing_rate_counterexample :
    (⟨['A', 'U', 'S', 'D', 'T'], some 1, none, some 5⟩ : BybitTicker).fundingRate = none ∧
      multi_pos_output [⟨['A', 'U', 'S', 'D', 'T'], some 1, none, some 5⟩]
        (fun _ => some ⟨['A'], 200000000⟩) 100000000 5 =
        [⟨['A', 'U', 'S', 'D', 'T'], ['A'], 1, 0, 200000000, 5⟩] ∧
      (⟨['A', 'U', 'S', 'D', 'T'], ['A'], 1, 0, 200000000, 5⟩ : MultiEntry).fundingRate = 0 := by
  have hproc : multi_processed [⟨['A', 'U', 'S', 'D', 'T'], some 1, none, some 5⟩]
      (fun _ => some ⟨['A'], 200000000⟩) 100000000 =
      [⟨['A', 'U', 'S', 'D', 'T'], ['A'], 1, 0, 200000000, 5⟩] := by decide
  refine ⟨rfl, ?_, rfl⟩
  rw [multi_pos_output, hproc, List.mergeSort_singleton]
  rfl

/-- C2 (corrected): a missing funding-rate field is coerced to `0`, not
treated as absent — in the negative tracker such a symbol fails the
`rate < 0` pre-filter and never appears in the output, but in the multi
tracker the instrument appears ranked as if its rate were exactly `0`
(when it passes the cap filter). -/
theorem C2_missing_rate_amended :
    (∀ (fd : List (Str × FundingInfo)) (td : List (Str × TickerInfo))
        (mc : List (Str × CoinMarketData)) (skip : Bool) (minCap : ℚ) (top : ℕ)
        (s : Str) (fi : FundingInfo),
      (fd.map Prod.fst).Nodup → (s, fi) ∈ fd → fi.fundingRate = none →
        ∀ e ∈ neg_output fd td mc skip minCap top, e.symbol ≠ s) ∧
    (∀ (t : BybitTicker) (cg : Str → Option CGMeta) (minCap : ℚ) (meta : CGMeta),
      endsWithUSDT t.symbol = true → t.fundingRate = none →
        cg (multi_base_key t.symbol) = some meta → ¬ meta.mcap < minCap →
        multi_processed [t] cg minCap =
          [{ symbol := t.symbol, name := meta.name, markPrice := t.markPrice.getD 0,
             fundingRate := 0, marketCapUSD := meta.mcap,
             turnover24h := t.turnover24h.getD 0 }]) := by
  constructor
  · intro fd td mc skip minCap top s fi hnd hmem hnone e he heq
    have he2 : e ∈ neg_results fd td mc skip minCap :=
      List.mem_mergeSort.mp ((List.take_sublist _ _).subset he)
    obtain ⟨hsym, -⟩ := neg_results_mem_charac fd td mc skip minCap e he2
    rw [heq] at hsym
    have hneg := negative_symbols_mem fd s hnd hsym
    rw [dget_eq_of_mem_nodup fd s fi hnd hmem] at hneg
    simp [hnone] at hneg
  · intro t cg minCap meta hE hnone hsome hlt
    rw [multi_processed]
    simp [hE, hsome, hnone, hlt]

/-- Witness for C2 (amended) at concrete runs of both variants. -/
theorem C2_missing_rate_amended_witness :
    (∀ e ∈ neg_output [(['A', 'U', 'S', 'D', 'T'], (⟨none, none⟩ : FundingInfo))]
        [] [] false 100 5, e.symbol ≠ ['A', 'U', 'S', 'D', 'T']) ∧
      multi_processed [⟨['A', 'U', 'S', 'D', 'T'], some 1, none, some 5⟩]
        (fun _ => some ⟨['A'], 200000000⟩) 100000000 =
        [⟨['A', 'U', 'S', 'D', 'T'], ['A'], 1, 0, 200000000, 5⟩] :=
  ⟨C2_missing_rate_amended.1 _ [] [] false 100 5 ['A', 'U', 'S', 'D', 'T'] ⟨none, none⟩
      (by simp) (by simp) rfl,
    C2_missing_rate_amended.2 ⟨['A', 'U', 'S', 'D', 'T'], some 1, none, some 5⟩
      (fun _ => some ⟨['A'], 200000000⟩) 100000000 ⟨['A'], 200000000⟩
      (by decide) rfl rfl (by norm_num)⟩
